import Mathlib

/-!
# Verification of the pi-mono-mini proactive task pipeline

Shallow embedding of the core of the repository: the Scheduler
(`src/proactive/scheduler.ts`), the pending-item Watcher
(`src/proactive/watcher.ts`, second version with the `processed` set), the
Proactive Coordinator (`src/proactive/index.ts`) and the Agent run/steer/
continue loop (`src/core/agent.ts`).

Modelling conventions:
* Timestamps are `Nat` milliseconds since the epoch.  `Date#getMinutes` and
  friends are modelled for a whole-hour (UTC-like) timezone, which is the
  only part of local-time arithmetic the code exercises.
* JavaScript `number` fields that can hold `NaN` (a `nextRun` computed from
  an invalid `Date`) are modelled as `Option Nat` with `none` for `NaN`; an
  optional field is one more `Option` layer (`none` = `undefined`).
  JS truthiness (`0`, `NaN`, `""`, `undefined` are falsy) is modelled
  explicitly at each `if` that the source performs on such a value.
* The several `Date.now()` calls inside one scheduler tick are modelled as a
  single instant `now`, matching the single-threaded tick that performs them
  back to back.
* Fallible JS code (`throw`/rejected promises) is modelled with `Except`.
-/

namespace PiMonoMini

/-! ## Scheduler (`src/proactive/scheduler.ts`) -/

/-- The whitespace `parseInt` skips before the number (ASCII whitespace,
no-break space and the byte-order mark; the remaining Unicode space
characters JS also skips cannot occur in the repository's cron fields). -/
def isJsSpace (c : Char) : Bool :=
  c = ' ' ∨ c = '\t' ∨ c = '\n' ∨ c = '\r' ∨ c = '\x0B' ∨ c = '\x0C' ∨
  c = '\xA0' ∨ c = '\uFEFF'

/-- Digit test for `parseInt`'s radix (10, or 16 after a `0x` prefix). -/
def isRadixDigit (radix : Nat) (c : Char) : Bool :=
  if radix = 16 then
    c.isDigit || ('a' ≤ c && c ≤ 'f') || ('A' ≤ c && c ≤ 'F')
  else c.isDigit

/-- Numeric value of a (decimal or hexadecimal) digit character. -/
def hexDigitVal (c : Char) : Nat :=
  if c.isDigit then c.toNat - 48
  else if 'a' ≤ c ∧ c ≤ 'f' then c.toNat - 87
  else if 'A' ≤ c ∧ c ≤ 'F' then c.toNat - 55
  else 0

/-- JS `parseInt(s)` (radix argument omitted, as in the source): skip
leading whitespace, consume an optional `+`/`-` sign, switch to radix 16
after a `0x`/`0X` prefix, then read the longest run of digits of the radix;
no digits means `NaN` (`none`), otherwise the signed value. -/
def parseIntJS (cs : List Char) : Option Int :=
  let cs1 := cs.dropWhile isJsSpace
  let signNeg : Bool :=
    match cs1 with
    | '-' :: _ => true
    | _ => false
  let cs2 :=
    match cs1 with
    | '-' :: r => r
    | '+' :: r => r
    | _ => cs1
  let p : Nat × List Char :=
    match cs2 with
    | '0' :: 'x' :: r => (16, r)
    | '0' :: 'X' :: r => (16, r)
    | _ => (10, cs2)
  let ds := p.2.takeWhile (isRadixDigit p.1)
  if ds.isEmpty then none
  else
    let v : Int := Int.ofNat (ds.foldl (fun n c => n * p.1 + hexDigitVal c) 0)
    some (if signNeg then -v else v)

/-- First cron field, `cron.split(' ')[0]`: the characters before the first
space. -/
def firstField (s : String) : List Char :=
  s.data.takeWhile (fun c => c ≠ ' ')

/-- The instant computed by `parseCron` for a non-zero interval at instant
`nowMs`: `next.setMinutes(Math.ceil((now.getMinutes() + 1) / N) * N)`
followed by zeroing seconds and milliseconds.  For a positive `N` the new
minute count is the least multiple of `N` strictly beyond the current
minute (`Math.ceil` rounds up, overflow past 59 rolls into later hours);
for a negative `N = -k` JS computes `Math.ceil` of a negative quotient,
which rounds toward zero, so the minute count is `⌊(m + 1) / k⌋ * k` — a
valid instant, usually in the past (the zero-interval NaN case never
reaches this function). -/
def nextEveryN (interval : Int) (nowMs : Nat) : Nat :=
  let currentMin := nowMs / 60000 % 60
  let nextMin : Nat :=
    if 0 < interval then
      (currentMin + interval.toNat) / interval.toNat * interval.toNat
    else
      (currentMin + 1) / (-interval).toNat * (-interval).toNat
  nowMs - nowMs % 3600000 + nextMin * 60000

/-- `parseCron` from `scheduler.ts`.  Result: `none` = JS `null` (first
field does not start with `*/`); `some none` = an `Invalid Date` whose
`getTime()` is `NaN` (no parsable interval, or interval `0`, which makes
the `Math.ceil` division produce `Infinity * 0 = NaN`); `some (some t)` = a
valid instant, also for negative intervals. -/
def parseCron (cron : String) (nowMs : Nat) : Option (Option Nat) :=
  if (firstField cron).take 2 = ['*', '/'] then
    match parseIntJS ((firstField cron).drop 2) with
    | none => some none
    | some interval =>
      if interval = 0 then some none
      else some (some (nextEveryN interval nowMs))
  else none

inductive TaskType
  | scheduled
  | recurring
  | event
deriving DecidableEq, Repr

structure TaskTrigger where
  /-- `trigger.at`, modelled as the already-parsed timestamp
  (`new Date(at).getTime()`). -/
  atTime : Option Nat := none
  cron : Option String := none
deriving DecidableEq, Repr

structure TaskAction where
  prompt : String
deriving DecidableEq, Repr

structure Task where
  id : String
  type : TaskType
  name : String
  trigger : TaskTrigger
  action : TaskAction
  enabled : Bool
  lastRun : Option Nat := none
  /-- `none` = `undefined`, `some none` = `NaN`, `some (some t)` = `t`. -/
  nextRun : Option (Option Nat) := none
  runCount : Nat
  maxRuns : Option Nat := none
  createdAt : Nat
deriving DecidableEq, Repr

structure PendingTask where
  taskId : String
  taskName : String
  prompt : String
  timestamp : Nat
deriving DecidableEq, Repr

structure TaskResult where
  taskId : String
  success : Bool
  timestamp : Nat
deriving DecidableEq, Repr

/-- Durable side effects of one scheduler tick, in the order they are
performed. -/
inductive SchedEv
  | saveTask (t : Task)
  | writePending (filename : String) (item : PendingTask)
deriving DecidableEq, Repr

/-- JS truthiness of the optional `trigger.cron` string. -/
def jsTruthyCron : Option String → Bool
  | none => false
  | some s => s ≠ ""

/-- `createTask`'s `nextRun` initialisation: `trigger.at` wins, otherwise a
truthy `trigger.cron` is fed to `parseCron` and a non-`null` result (valid
or invalid date) is stored. -/
def initialNextRun (trigger : TaskTrigger) (now : Nat) : Option (Option Nat) :=
  match trigger.atTime with
  | some ts => some (some ts)
  | none =>
    if jsTruthyCron trigger.cron then
      match parseCron (trigger.cron.getD "") now with
      | some d => some d
      | none => none
    else none

/-- The guard of `checkTasks`: a task is triggered unless one of the three
`continue`s fires (`!task.enabled`, `!task.nextRun || task.nextRun > now`,
`task.maxRuns && task.runCount >= task.maxRuns`), with JS truthiness for
`nextRun` (`undefined`, `NaN` and `0` are falsy) and `maxRuns` (`0` falsy). -/
def shouldFire (t : Task) (now : Nat) : Bool :=
  t.enabled &&
  (match t.nextRun with
   | some (some v) => decide (v ≠ 0) && decide (v ≤ now)
   | _ => false) &&
  (match t.maxRuns with
   | some m => decide (m = 0) || decide (t.runCount < m)
   | none => true)

/-- `triggerTask`: bump `lastRun`/`runCount`, recompute `nextRun` (a
recurring task with a truthy cron keeps its old `nextRun` when `parseCron`
returns `null`, otherwise stores the parsed instant; every other task gets
`undefined`), then save the task and write the pending work item file
`"<id>-<now>.json"`. -/
def triggerTask (t : Task) (now : Nat) : Task × List SchedEv :=
  let t1 := { t with lastRun := some now, runCount := t.runCount + 1 }
  let newNext : Option (Option Nat) :=
    if t.type = TaskType.recurring ∧ jsTruthyCron t.trigger.cron = true then
      match parseCron (t.trigger.cron.getD "") now with
      | some d => some d
      | none => t1.nextRun
    else none
  let t2 := { t1 with nextRun := newNext }
  let item : PendingTask :=
    { taskId := t.id, taskName := t.name, prompt := t.action.prompt
      timestamp := now }
  (t2, [SchedEv.saveTask t2,
        SchedEv.writePending (t.id ++ "-" ++ toString now ++ ".json") item])

/-- One scheduler tick (`checkTasks`): every stored task is inspected in
order, due ones are triggered. -/
def checkTasks (tasks : List Task) (now : Nat) : List Task × List SchedEv :=
  match tasks with
  | [] => ([], [])
  | t :: rest =>
    let tail := checkTasks rest now
    if shouldFire t now then
      let fired := triggerTask t now
      (fired.1 :: tail.1, fired.2 ++ tail.2)
    else (t :: tail.1, tail.2)

/-! ### Timers (`Scheduler.start/stop`, `PendingWatcher.start/stop`) -/

/-- The scheduler's only timer: `checkInterval` is nulled by `stop()`. -/
structure SchedulerTimer where
  checkInterval : Bool
deriving DecidableEq, Repr

def schedulerStart (s : SchedulerTimer) : SchedulerTimer :=
  if s.checkInterval then s else { checkInterval := true }

def schedulerStop (_s : SchedulerTimer) : SchedulerTimer :=
  { checkInterval := false }

/-- The watcher's timers: the fs watcher handle (stored in `this.watcher`)
and the number of armed 5-second `scanPending` intervals, whose
`setInterval` handle the source discards. -/
structure WatcherTimers where
  watcherArmed : Bool
  scanIntervalsArmed : Nat
deriving DecidableEq, Repr

/-- `PendingWatcher.start`: no-op when the fs watcher exists, otherwise arms
the fs watcher and one periodic re-scan interval. -/
def watcherStart (w : WatcherTimers) : WatcherTimers :=
  if w.watcherArmed then w
  else { watcherArmed := true, scanIntervalsArmed := w.scanIntervalsArmed + 1 }

/-- `PendingWatcher.stop`: closes the fs watcher only. -/
def watcherStop (w : WatcherTimers) : WatcherTimers :=
  if w.watcherArmed then { w with watcherArmed := false } else w

/-! ## Watcher (`src/proactive/watcher.ts`, second version)

`processFile` runs synchronously from its entry to the first `await`
(`readFile`): the `processing`/`processed` guard, the `existsSync` check and
`processing.add` all execute atomically on the single JS thread.  Two
overlapping discoveries of the same file are therefore modelled as two
invocations each consisting of an atomic *entry* step (that synchronous
prefix) and an atomic *body* step (the rest, which no other invocation of
the same filename can interleave with, because the entry guard admits only
one of them), interleaved in any order. -/

/-- In-memory watcher state plus the pending directory and counters for the
externally observable effects (handler invocations, `unlink` attempts,
`unlink` calls that found no file, `error` events, `processed` events). -/
structure WState where
  processing : List String
  processed : List String
  /-- The pending directory: filename ↦ file content. -/
  files : List (String × String)
  handlerCalls : Nat
  unlinkAttempts : Nat
  unlinkMisses : Nat
  errorEvents : Nat
  processedEvents : Nat
deriving DecidableEq, Repr

/-- The synchronous prefix of `processFile`: skip when the name is in
`processing` or `processed`, skip when the file no longer exists
(`existsSync`), otherwise add to `processing` and proceed (`true`). -/
def wEntry (w : WState) (fn : String) : WState × Bool :=
  if fn ∈ w.processing ∨ fn ∈ w.processed then (w, false)
  else if (w.files.lookup fn).isNone then (w, false)
  else ({ w with processing := fn :: w.processing }, true)

/-- The rest of `processFile`, entered only after `wEntry` admitted the
invocation: read and parse the file, invoke the handler (`handler content`
tells whether it resolves), on success mark `processed`, attempt the
`unlink` (a missing file is the swallowed `ENOENT`), emit `processed`; on
handler rejection emit `error` and leave the item; a file that disappeared
before `readFile` is the outer-catch `ENOENT` path, marked `processed`
without an error.  `finally` removes the name from `processing`. -/
def wBody (handler : String → Bool) (w : WState) (fn : String) : WState :=
  match w.files.lookup fn with
  | none =>
    { w with processed := fn :: w.processed
             processing := w.processing.erase fn }
  | some content =>
    let w1 := { w with handlerCalls := w.handlerCalls + 1 }
    if handler content then
      let w2 := { w1 with processed := fn :: w1.processed }
      let w3 :=
        if (w2.files.lookup fn).isSome then
          { w2 with files := w2.files.filter (fun p => p.1 ≠ fn)
                    unlinkAttempts := w2.unlinkAttempts + 1 }
        else
          { w2 with unlinkAttempts := w2.unlinkAttempts + 1
                    unlinkMisses := w2.unlinkMisses + 1 }
      { w3 with processedEvents := w3.processedEvents + 1
                processing := w3.processing.erase fn }
    else
      { w1 with errorEvents := w1.errorEvents + 1
                processing := w1.processing.erase fn }

/-- One complete, uninterleaved `processFile` invocation. -/
def processFile (handler : String → Bool) (w : WState) (fn : String) : WState :=
  let e := wEntry w fn
  if e.2 then wBody handler e.1 fn else e.1

/-- Progress of one in-flight `processFile` invocation. -/
inductive InvPhase
  | notStarted
  | ready
  | finished
deriving DecidableEq, Repr

/-- Advance one invocation by one atomic step. -/
def stepInv (handler : String → Bool) (fn : String) :
    WState × InvPhase → WState × InvPhase
  | (w, InvPhase.notStarted) =>
    let e := wEntry w fn
    (e.1, if e.2 then InvPhase.ready else InvPhase.finished)
  | (w, InvPhase.ready) => (wBody handler w fn, InvPhase.finished)
  | (w, InvPhase.finished) => (w, InvPhase.finished)

/-- Run two overlapping invocations of `processFile` for the same filename
under an arbitrary interleaving: `true` advances the first invocation,
`false` the second. -/
def runTwo (handler : String → Bool) (fn : String) :
    List Bool → WState × InvPhase × InvPhase → WState × InvPhase × InvPhase
  | [], s => s
  | b :: rest, (w, pA, pB) =>
    if b then
      let r := stepInv handler fn (w, pA)
      runTwo handler fn rest (r.1, r.2, pB)
    else
      let r := stepInv handler fn (w, pB)
      runTwo handler fn rest (r.1, pA, r.2)

/-! ## Agent (`src/core/agent.ts`)

The ReAct loop is embedded with the `maxIterations` bound as structural
fuel (the source's `while (iterations < maxIterations)` counter).  The
completion client is an oracle: a script of responses, one consumed per
`callLLM` await.  `steer` can be called by other event-loop callbacks only
while the loop is suspended at an await, so each script entry also carries
the list of messages steered during that await, enqueued by the time the
call returns.  Exceptions (`throw`, rejected `complete`) are `Except`
errors; the `catch` that resets `isRunning` is part of every error exit. -/

inductive Role
  | system
  | user
  | assistant
  | tool
deriving DecidableEq, Repr

structure ToolCall where
  id : String
  name : String
  /-- The argument payload, opaque to the loop. -/
  arguments : String
deriving DecidableEq, Repr

structure Message where
  role : Role
  content : String
  tool_calls : List ToolCall := []
  tool_call_id : Option String := none
  name : Option String := none
deriving DecidableEq, Repr

structure ToolImpl where
  name : String
  description : String
  /-- `execute(args)`: resolves with a result string or rejects with an
  error message. -/
  execute : String → Except String String

structure LLMResponse where
  content : String
  toolCalls : List ToolCall := []
deriving DecidableEq, Repr

/-- One completion-call await: the response (or a transport rejection) and
the messages steered into the queue while the loop was suspended on it. -/
structure LLMStep where
  response : Except Unit LLMResponse
  arrivals : List Message := []

structure AgentState where
  messages : List Message
  tools : List ToolImpl
  steeringQueue : List Message
  isRunning : Bool

inductive RunErr
  | alreadyRunning
  | transport
  | oracleExhausted
  | maxIterationsReached
deriving DecidableEq, Repr

/-- Observable events of one `runLoop` activation, in order. -/
inductive AgentEv
  /-- A message was popped off the steering queue and appended to the log. -/
  | popped (m : Message)
  /-- A steered message arrived (was pushed on the queue). -/
  | steered (m : Message)
  /-- The completion client was called; records the steering-queue length
  at the moment of the call. -/
  | llmCall (queueLen : Nat)
  /-- The loop returned at the assistant-last/empty-queue idle point. -/
  | retIdle
  /-- The loop returned by appending a final assistant answer. -/
  | retAnswer
deriving DecidableEq, Repr

/-- `this.tools.get(name)` over the registry in insertion order. -/
def findTool (tools : List ToolImpl) (n : String) : Option ToolImpl :=
  tools.find? (fun t => t.name == n)

/-- `this.tools.set(tool.name, tool)`: replace in place or append. -/
def setTool (tools : List ToolImpl) (t : ToolImpl) : List ToolImpl :=
  if tools.any (fun u => u.name == t.name) then
    tools.map (fun u => if u.name == t.name then t else u)
  else tools ++ [t]

/-- `buildSystemPrompt`: the configured prompt plus the tool listing
(`'(none)'` when the joined listing is the falsy empty string). -/
def buildSystemPrompt (sysPrompt : String) (tools : List ToolImpl) : String :=
  let toolList :=
    String.intercalate "\n"
      (tools.map (fun t => "- " ++ t.name ++ ": " ++ t.description))
  sysPrompt ++ "\n\nAvailable tools:\n" ++
    (if toolList = "" then "(none)" else toolList)

/-- The tool-result message `addToolResult` pushes. -/
def toolResultMsg (toolCallId toolName result : String) : Message :=
  { role := Role.tool, content := result, tool_call_id := some toolCallId
    name := some toolName }

/-- `executeTool`: unknown tool and rejected `execute` both become textual
error results; nothing is re-thrown. -/
def executeTool (tools : List ToolImpl) (tc : ToolCall) : Message :=
  match findTool tools tc.name with
  | none =>
    toolResultMsg tc.id tc.name ("Error: Tool \"" ++ tc.name ++ "\" not found")
  | some t =>
    match t.execute tc.arguments with
    | Except.ok r => toolResultMsg tc.id tc.name r
    | Except.error e => toolResultMsg tc.id tc.name ("Error: " ++ e)

/-- The assistant message pushed when the response carries tool calls. -/
def assistantCallMsg (resp : LLMResponse) : Message :=
  { role := Role.assistant, content := resp.content
    tool_calls := resp.toolCalls }

/-- The final-answer assistant message. -/
def finalAnswerMsg (content : String) : Message :=
  { role := Role.assistant, content := content }

/-- The steering check at the top of each iteration: pop the queue head (if
any) and append it to the log. -/
def popSteer (st : AgentState) : AgentState :=
  match st.steeringQueue with
  | [] => st
  | m :: rest =>
    { st with messages := st.messages ++ [m], steeringQueue := rest }

/-- `lastMsg?.role === 'assistant'` (an empty log gives `undefined`). -/
def lastIsAssistant (msgs : List Message) : Bool :=
  match msgs.getLast? with
  | some lm => lm.role == Role.assistant
  | none => false

/-- `lastMsg.content` at the idle exit (the log is provably non-empty
there). -/
def lastContent (msgs : List Message) : String :=
  ((msgs.getLast?).map Message.content).getD ""

/-- Everything one `runLoop` activation produces. -/
structure RunOutcome where
  result : Except RunErr String
  state : AgentState
  events : List AgentEv

/-- The body of `runLoop`'s `while` with the remaining iteration budget as
fuel.  Each `r + 1` case is one iteration: steering pop, assistant-last
check (idle exit or skip straight to the next iteration), completion call
(consuming one oracle step and enqueueing its arrivals), then either the
transport throw, the final-answer exit, or the tool branch (push the
assistant tool-call message, execute every call in order, loop). -/
def loopAux : List LLMStep → AgentState → Nat → RunOutcome
  | _, st, 0 =>
    ⟨Except.error RunErr.maxIterationsReached, { st with isRunning := false }, []⟩
  | oracle, st, r + 1 =>
    let st1 := popSteer st
    let ev1 : List AgentEv :=
      match st.steeringQueue with
      | [] => []
      | m :: _ => [AgentEv.popped m]
    if lastIsAssistant st1.messages then
      match st1.steeringQueue with
      | [] =>
        ⟨Except.ok (lastContent st1.messages), { st1 with isRunning := false },
         ev1 ++ [AgentEv.retIdle]⟩
      | _ :: _ =>
        let out := loopAux oracle st1 r
        ⟨out.result, out.state, ev1 ++ out.events⟩
    else
      match oracle with
      | [] =>
        ⟨Except.error RunErr.oracleExhausted, { st1 with isRunning := false },
         ev1 ++ [AgentEv.llmCall st1.steeringQueue.length]⟩
      | step :: restO =>
        let ev2 := ev1 ++ [AgentEv.llmCall st1.steeringQueue.length] ++
          step.arrivals.map AgentEv.steered
        let st2 :=
          { st1 with steeringQueue := st1.steeringQueue ++ step.arrivals }
        match step.response with
        | Except.error _ =>
          ⟨Except.error RunErr.transport, { st2 with isRunning := false }, ev2⟩
        | Except.ok resp =>
          match resp.toolCalls with
          | [] =>
            ⟨Except.ok resp.content,
             { st2 with
                messages := st2.messages ++ [finalAnswerMsg resp.content]
                isRunning := false },
             ev2 ++ [AgentEv.retAnswer]⟩
          | _ :: _ =>
            let st3 :=
              { st2 with
                  messages := st2.messages ++ [assistantCallMsg resp] ++
                    resp.toolCalls.map (executeTool st2.tools) }
            let out := loopAux restO st3 r
            ⟨out.result, out.state, ev2 ++ out.events⟩

/-- `runLoop`: guard against re-entry, set `isRunning`, run the loop. -/
def runLoop (oracle : List LLMStep) (maxIterations : Nat) (st : AgentState) :
    RunOutcome :=
  if st.isRunning then ⟨Except.error RunErr.alreadyRunning, st, []⟩
  else loopAux oracle { st with isRunning := true } maxIterations

/-- `steer(message)`: push on the steering queue, touch nothing else. -/
def steer (st : AgentState) (m : Message) : AgentState :=
  { st with steeringQueue := st.steeringQueue ++ [m] }

/-- `continue()`: no-op empty answer while running, otherwise `runLoop`. -/
def continueAgent (oracle : List LLMStep) (maxIterations : Nat)
    (st : AgentState) : RunOutcome :=
  if st.isRunning then ⟨Except.ok "", st, []⟩
  else runLoop oracle maxIterations st

/-- `run(userInput)` once the cooperative wait has observed `isRunning`
false: append the user message, enter the loop. -/
def runAgent (oracle : List LLMStep) (maxIterations : Nat) (st : AgentState)
    (userInput : String) : RunOutcome :=
  runLoop oracle maxIterations
    { st with
        messages := st.messages ++ [{ role := Role.user, content := userInput }] }

/-- The constructor: register the initial tools, push the system message. -/
def initAgent (sysPrompt : String) (tools : List ToolImpl) : AgentState :=
  let reg := tools.foldl setTool []
  { messages := [{ role := Role.system, content := buildSystemPrompt sysPrompt reg }]
    tools := reg, steeringQueue := [], isRunning := false }

/-- `registerTool`: update the registry and rewrite the system message's
content in place (only when the log is non-empty and starts with a system
message, which is invariant). -/
def registerTool (sysPrompt : String) (st : AgentState) (t : ToolImpl) :
    AgentState :=
  let tools' := setTool st.tools t
  let msgs' :=
    match st.messages with
    | [] => []
    | h :: rest =>
      if h.role = Role.system then
        { h with content := buildSystemPrompt sysPrompt tools' } :: rest
      else h :: rest
  { st with tools := tools', messages := msgs' }

/-- `clear()`: keep only the original system message, empty the queue. -/
def clearAgent (st : AgentState) : AgentState :=
  { st with
      messages := match st.messages with
        | [] => []
        | h :: _ => [h]
      steeringQueue := [] }

/-- States an Agent constructed with prompt `sysPrompt` and bound
`maxIterations` can reach through its public operations (`run` only fires
once the cooperative wait has seen the agent idle). -/
inductive Reach (sysPrompt : String) (maxIterations : Nat) : AgentState → Prop
  | init (tools : List ToolImpl) : Reach sysPrompt maxIterations (initAgent sysPrompt tools)
  | runStep (st : AgentState) (oracle : List LLMStep) (input : String) :
      Reach sysPrompt maxIterations st → st.isRunning = false →
      Reach sysPrompt maxIterations (runAgent oracle maxIterations st input).state
  | steerStep (st : AgentState) (m : Message) :
      Reach sysPrompt maxIterations st →
      Reach sysPrompt maxIterations (steer st m)
  | contStep (st : AgentState) (oracle : List LLMStep) :
      Reach sysPrompt maxIterations st →
      Reach sysPrompt maxIterations (continueAgent oracle maxIterations st).state
  | clearStep (st : AgentState) :
      Reach sysPrompt maxIterations st →
      Reach sysPrompt maxIterations (clearAgent st)
  | regStep (st : AgentState) (t : ToolImpl) :
      Reach sysPrompt maxIterations st →
      Reach sysPrompt maxIterations (registerTool sysPrompt st t)

/-! ## Proactive Coordinator (`src/proactive/index.ts`) -/

/-- The synthetic user message `handlePendingTask` builds. -/
def proactiveMsg (pt : PendingTask) : Message :=
  { role := Role.user
    content := "[Proactive Task: " ++ pt.taskName ++ "]\n" ++ pt.prompt }

/-- `handlePendingTask`: steer the synthetic message, then `continue()` the
agent iff it is not streaming, then record an always-`success` result.  The
returned `Bool` records whether `continue()` was invoked.  When the awaited
`continue()` rejects, the rejection propagates and `recordResult` is never
reached. -/
def handlePendingTask (oracle : List LLMStep) (maxIterations : Nat)
    (st : AgentState) (pt : PendingTask) (now : Nat) :
    Except RunErr (AgentState × Bool × TaskResult) :=
  let st1 := steer st (proactiveMsg pt)
  if st1.isRunning then
    Except.ok (st1, false, { taskId := pt.taskId, success := true, timestamp := now })
  else
    let out := continueAgent oracle maxIterations st1
    match out.result with
    | Except.error e => Except.error e
    | Except.ok _ =>
      Except.ok (out.state, true,
        { taskId := pt.taskId, success := true, timestamp := now })

/-- The messages a run popped off the steering queue, in pop order. -/
def poppedOf (evs : List AgentEv) : List Message :=
  evs.filterMap (fun e => match e with
    | AgentEv.popped m => some m
    | _ => none)

/-- The messages steered into the queue during a run, in arrival order. -/
def steeredOf (evs : List AgentEv) : List Message :=
  evs.filterMap (fun e => match e with
    | AgentEv.steered m => some m
    | _ => none)

/-! ## Claim-side definitions

These two definitions are transcriptions of claim wording (not of the
source); they exist only to be compared against the source-derived
definitions above. -/

/-- Claim wording (C4): a cron string "of the form `*/N * * * *`" — `*/`,
then at least one digit, then exactly the four remaining `*` fields. -/
def cronEveryNForm (s : String) : Bool :=
  let cs := s.data
  let ds := (cs.drop 2).takeWhile Char.isDigit
  decide (cs.take 2 = ['*', '/']) && !ds.isEmpty &&
    decide ((cs.drop 2).drop ds.length = " * * * *".data)

/-- Claim wording (C2): a task fires iff it is enabled, has a `nextRun`
with `nextRun ≤ now`, and `runCount < maxRuns` whenever `maxRuns` is set. -/
def specFire (t : Task) (now : Nat) : Bool :=
  t.enabled &&
  (match t.nextRun with
   | some (some v) => decide (v ≤ now)
   | _ => false) &&
  (match t.maxRuns with
   | some m => decide (t.runCount < m)
   | none => true)

/-! # Theorems -/

/-! ## Helper lemmas -/

/-- `checkTasks` fires exactly the due tasks, in order, concatenating their
persistence events. -/
theorem checkTasks_characterisation (now : Nat) (ts : List Task) :
    (checkTasks ts now).1 =
      ts.map (fun u => if shouldFire u now then (triggerTask u now).1 else u) ∧
    (checkTasks ts now).2 =
      (ts.map (fun u => if shouldFire u now then (triggerTask u now).2 else [])).flatten := by
  induction ts with
  | nil => exact ⟨rfl, rfl⟩
  | cons t rest ih =>
    by_cases h : shouldFire t now
    · simp [checkTasks, h, ih.1, ih.2]
    · simp [checkTasks, h, ih.1, ih.2]

/-- Arithmetic of the `parseCron` minute computation for a positive
interval: the result is on a minute boundary, at the least multiple of `N`
minutes past the hour start that lies strictly beyond the current minute. -/
theorem nextEveryN_spec (N : Int) (now : Nat) (hN : 1 ≤ N) :
    nextEveryN N now % 60000 = 0 ∧
    ∃ k, nextEveryN N now = now - now % 3600000 + k * N.toNat * 60000 ∧
      now / 60000 % 60 < k * N.toNat ∧
      ∀ j, now / 60000 % 60 < j * N.toNat → k * N.toNat ≤ j * N.toNat := by
  have hk : 1 ≤ N.toNat := by omega
  have hrw : nextEveryN N now
      = now - now % 3600000
        + ((now / 60000 % 60 + N.toNat) / N.toNat * N.toNat) * 60000 := by
    unfold nextEveryN
    dsimp only
    rw [if_pos (by omega : (0 : Int) < N)]
  have hdm : N.toNat * ((now / 60000 % 60 + N.toNat) / N.toNat)
        + (now / 60000 % 60 + N.toNat) % N.toNat
      = now / 60000 % 60 + N.toNat := Nat.div_add_mod _ _
  have hlt : (now / 60000 % 60 + N.toNat) % N.toNat < N.toNat :=
    Nat.mod_lt _ (by omega)
  have hmul : (now / 60000 % 60 + N.toNat) / N.toNat * N.toNat
      = N.toNat * ((now / 60000 % 60 + N.toNat) / N.toNat) :=
    Nat.mul_comm _ _
  constructor
  · rw [hrw, hmul]
    generalize N.toNat * ((now / 60000 % 60 + N.toNat) / N.toNat) = p at hdm hlt ⊢
    omega
  · refine ⟨(now / 60000 % 60 + N.toNat) / N.toNat,
      by rw [hrw, hmul, Nat.mul_comm], ?_, ?_⟩
    · rw [hmul]
      generalize N.toNat * ((now / 60000 % 60 + N.toNat) / N.toNat) = p at hdm hlt ⊢
      omega
    · intro j hj
      have h3 : (now / 60000 % 60 + N.toNat) / N.toNat * N.toNat
          ≤ now / 60000 % 60 + N.toNat := by
        rw [hmul]
        generalize N.toNat * ((now / 60000 % 60 + N.toNat) / N.toNat) = p at hdm hlt ⊢
        omega
      have h4 : (now / 60000 % 60 + N.toNat) / N.toNat * N.toNat
          < (j + 1) * N.toNat := by
        have : (j + 1) * N.toNat = j * N.toNat + N.toNat := by ring
        omega
      have h5 : (now / 60000 % 60 + N.toNat) / N.toNat < j + 1 :=
        Nat.lt_of_mul_lt_mul_right h4
      exact Nat.mul_le_mul_right N.toNat (by omega)

/-- The `Math.ceil` of a negative quotient rounds toward zero, so a
negative interval `-k` lands on minute `⌊(m + 1) / k⌋ * k` — a valid
instant, not `NaN`. -/
theorem nextEveryN_neg (N : Int) (now : Nat) (hN : N ≤ -1) :
    nextEveryN N now
      = now - now % 3600000
        + ((now / 60000 % 60 + 1) / (-N).toNat * (-N).toNat) * 60000 := by
  unfold nextEveryN
  dsimp only
  rw [if_neg (by omega : ¬ (0 : Int) < N)]

/-! ## C9 — Scheduler/Watcher timer cancellation (code bug)

The claim (spec §5: "Scheduler and Watcher timers are cancelled cleanly
via `stop()`") holds for the Scheduler, whose `stop()` clears
`checkInterval`; but `PendingWatcher.start()` arms a 5-second `scanPending`
interval whose `setInterval` handle it discards, and `stop()` closes only
the fs watcher, so after `start(); stop()` the periodic re-scan interval is
still armed.  The theorem evaluates the embedded timer bookkeeping at that
failing input. -/

/-- C9: after `Scheduler.start(); Scheduler.stop()` no scheduler timer
remains, but after `PendingWatcher.start(); PendingWatcher.stop()` the
re-scan interval armed by `start()` is still armed (`stop()` only disarms
the fs watcher): the code contradicts the claim. -/
theorem c9_watcher_rescan_timer_survives_stop :
    schedulerStop (schedulerStart { checkInterval := false })
      = { checkInterval := false } ∧
    (watcherStop (watcherStart { watcherArmed := false, scanIntervalsArmed := 0 })).watcherArmed
      = false ∧
    (watcherStop (watcherStart { watcherArmed := false, scanIntervalsArmed := 0 })).scanIntervalsArmed
      = 1 := by
  decide

/-! ## C2 — Scheduler tick firing condition and effects (corrected)

The firing condition as claimed reads "`runCount < maxRuns` when `maxRuns`
is set" and "has a `nextRun` with `nextRun ≤ now`".  The source guards are
JS-truthiness tests: `task.maxRuns && task.runCount >= task.maxRuns`
ignores `maxRuns = 0` entirely, and `!task.nextRun` also skips a task whose
`nextRun` is the (falsy) timestamp `0` or `NaN`.  A task with
`maxRuns = 0` and `runCount = 5` therefore fires even though the claim says
it must not. -/

/-- C2 counterexample: an enabled, due task with `maxRuns = 0` (set) and
`runCount = 5` fires under the source guard, while the claimed condition
(`runCount < maxRuns` whenever `maxRuns` is set) forbids it. -/
theorem c2_counterexample_maxRuns_zero :
    shouldFire
      { id := "t", type := TaskType.scheduled, name := "n", trigger := {}
        action := { prompt := "p" }, enabled := true
        nextRun := some (some 1000), runCount := 5, maxRuns := some 0
        createdAt := 0 } 2000 = true ∧
    specFire
      { id := "t", type := TaskType.scheduled, name := "n", trigger := {}
        action := { prompt := "p" }, enabled := true
        nextRun := some (some 1000), runCount := 5, maxRuns := some 0
        createdAt := 0 } 2000 = false := by
  decide

/-- C2 (amended): on a tick a task fires iff it is enabled, `nextRun` is a
finite non-zero timestamp `≤ now`, and `runCount < maxRuns` whenever
`maxRuns` is set to a non-zero value (`maxRuns = 0` is treated as unset by
the truthiness guard).  Each firing increments `runCount`, sets `lastRun`,
recomputes `nextRun` (absent for a `scheduled` one-shot, the parsed next
recurrence for a `recurring` task with a cron trigger), then saves the task
and then writes exactly one pending work item named
`"<taskId>-<now>.json"` carrying the task id, name, prompt and firing
timestamp.  A task with `maxRuns = 1` never fires once `runCount ≥ 1`, and
in particular never fires again after firing once.  A tick processes every
stored task independently in order. -/
theorem c2_tick_amended (t : Task) (now : Nat) :
    (shouldFire t now = true ↔
      (t.enabled = true ∧ ∃ v, t.nextRun = some (some v) ∧ v ≠ 0 ∧ v ≤ now ∧
        ∀ m, t.maxRuns = some m → m ≠ 0 → t.runCount < m)) ∧
    ((triggerTask t now).1.runCount = t.runCount + 1 ∧
      (triggerTask t now).1.lastRun = some now ∧
      (t.type = TaskType.scheduled → (triggerTask t now).1.nextRun = none) ∧
      (∀ c d, t.type = TaskType.recurring → t.trigger.cron = some c → c ≠ "" →
        parseCron c now = some d → (triggerTask t now).1.nextRun = some d) ∧
      (triggerTask t now).2 =
        [SchedEv.saveTask (triggerTask t now).1,
         SchedEv.writePending (t.id ++ "-" ++ toString now ++ ".json")
           { taskId := t.id, taskName := t.name, prompt := t.action.prompt
             timestamp := now }]) ∧
    (t.maxRuns = some 1 → 1 ≤ t.runCount → shouldFire t now = false) ∧
    (t.maxRuns = some 1 → ∀ now2, shouldFire (triggerTask t now).1 now2 = false) ∧
    (∀ ts : List Task,
      (checkTasks ts now).1 =
        ts.map (fun u => if shouldFire u now then (triggerTask u now).1 else u) ∧
      (checkTasks ts now).2 =
        (ts.map (fun u => if shouldFire u now then (triggerTask u now).2 else [])).flatten) := by
  refine ⟨?_, ⟨rfl, rfl, ?_, ?_, ?_⟩, ?_, ?_, fun ts => checkTasks_characterisation now ts⟩
  · constructor
    · intro h
      simp only [shouldFire, Bool.and_eq_true] at h
      obtain ⟨⟨hen, hnr⟩, hmr⟩ := h
      refine ⟨hen, ?_⟩
      match hn : t.nextRun with
      | none => rw [hn] at hnr; exact absurd hnr (by simp)
      | some none => rw [hn] at hnr; exact absurd hnr (by simp)
      | some (some v) =>
        rw [hn] at hnr
        simp only [Bool.and_eq_true, decide_eq_true_eq] at hnr
        refine ⟨v, rfl, hnr.1, hnr.2, ?_⟩
        intro m hm hm0
        rw [hm] at hmr
        simp only [Bool.or_eq_true, decide_eq_true_eq] at hmr
        exact hmr.resolve_left hm0
    · rintro ⟨hen, v, hn, hv0, hvle, hmax⟩
      simp only [shouldFire, hn, hen, Bool.and_eq_true, Bool.true_and,
        decide_eq_true_eq]
      refine ⟨⟨hv0, hvle⟩, ?_⟩
      match hm : t.maxRuns with
      | none => simp
      | some m =>
        by_cases hm0 : m = 0
        · simp [hm0]
        · simp only [Bool.or_eq_true, decide_eq_true_eq]
          exact Or.inr (hmax m hm hm0)
  · intro h
    simp [triggerTask, h]
  · intro c d h1 h2 h3 h4
    simp [triggerTask, h1, h2, jsTruthyCron, h3, h4]
  · simp [triggerTask]
  · intro h1 h2
    simp only [shouldFire, h1]
    have : (decide (1 = 0) || decide (t.runCount < 1)) = false := by
      simp only [Bool.or_eq_false_iff, decide_eq_false_iff_not]
      omega
    rw [this, Bool.and_false]
  · intro h1 now2
    have hm : (triggerTask t now).1.maxRuns = some 1 := by simp [triggerTask, h1]
    have hrc : (triggerTask t now).1.runCount = t.runCount + 1 := rfl
    simp only [shouldFire, hm, hrc]
    have : (decide (1 = 0) || decide (t.runCount + 1 < 1)) = false := by
      simp
    rw [this, Bool.and_false]

/-- C2 witness: the amended theorem applied to a concrete recurring task
with `maxRuns = 1` that already fired once: it is no longer due. -/
theorem c2_tick_amended_witness :
    shouldFire
      { id := "a", type := TaskType.recurring, name := "n"
        trigger := { cron := some "*/5 * * * *" }, action := { prompt := "p" }
        enabled := true, nextRun := some (some 50), runCount := 1
        maxRuns := some 1, createdAt := 0 } 100 = false :=
  (c2_tick_amended
    { id := "a", type := TaskType.recurring, name := "n"
      trigger := { cron := some "*/5 * * * *" }, action := { prompt := "p" }
      enabled := true, nextRun := some (some 50), runCount := 1
      maxRuns := some 1, createdAt := 0 } 100).2.2.1 rfl (by decide)

/-! ## C4 — Minimal recurrence evaluator (corrected)

The claim says any cron other than the exact `*/N * * * *` form yields
`null`.  `parseCron` inspects only the first field: `"*/5 0 0 0 0"` is not
of the claimed form, yet evaluates to the same next instant as
`"*/5 * * * *"`; and an unparsable first field (`"*/x ..."`) yields an
`Invalid Date`, not `null`. -/

/-- C4 counterexample: `"*/5 0 0 0 0"` is not of the form `*/N * * * *`
(while `"*/5 * * * *"` is), yet `parseCron` returns `12:05:00` for it at
`12:01:00` instead of the claimed `null`. -/
theorem c4_counterexample_trailing_fields_ignored :
    cronEveryNForm "*/5 0 0 0 0" = false ∧
    cronEveryNForm "*/5 * * * *" = true ∧
    parseCron "*/5 0 0 0 0" 43260000 = some (some 43500000) := by
  decide

/-- C4 (amended): the evaluator inspects only the first cron field.  If it
does not start with `*/` the result is `null` (the task never fires).  If
the rest of the first field parses under JS `parseInt` (optional
whitespace, optional sign, optional `0x` hex prefix) to an interval
`N ≥ 1` — the remaining fields are ignored — the result is the next minute
boundary strictly after the current minute lying a least multiple of `N`
minutes past the start of the current hour, with seconds and milliseconds
zero.  A first field with no parsable interval (`"*/x"`), or with interval
`0`, yields an invalid (`NaN`) instant rather than `null`, and the task
never fires; a negative interval `-k` yields a *valid* instant at minute
`⌊(m + 1) / k⌋ * k` of the current hour (usually in the past, so the task
is immediately due).  In particular a 5-minute interval evaluated at
`12:01:00` gives `12:05:00`, re-evaluation at the `12:05:00` fire time
gives `12:10:00`, `*/0x10` parses as every 16 minutes giving `12:16:00`,
and a first field of `*/` followed by `-5` at `12:01:00` gives
`12:00:00`. -/
theorem c4_parseCron_amended (s : String) (now : Nat) :
    ((firstField s).take 2 ≠ ['*', '/'] → parseCron s now = none) ∧
    (∀ N : Int, (firstField s).take 2 = ['*', '/'] →
      parseIntJS ((firstField s).drop 2) = some N → 1 ≤ N →
      parseCron s now = some (some (nextEveryN N now)) ∧
      nextEveryN N now % 60000 = 0 ∧
      ∃ k, nextEveryN N now = now - now % 3600000 + k * N.toNat * 60000 ∧
        now / 60000 % 60 < k * N.toNat ∧
        ∀ j, now / 60000 % 60 < j * N.toNat → k * N.toNat ≤ j * N.toNat) ∧
    ((firstField s).take 2 = ['*', '/'] →
      parseIntJS ((firstField s).drop 2) = none → parseCron s now = some none) ∧
    ((firstField s).take 2 = ['*', '/'] →
      parseIntJS ((firstField s).drop 2) = some 0 → parseCron s now = some none) ∧
    (∀ N : Int, (firstField s).take 2 = ['*', '/'] →
      parseIntJS ((firstField s).drop 2) = some N → N ≤ -1 →
      parseCron s now = some (some (nextEveryN N now)) ∧
      nextEveryN N now
        = now - now % 3600000
          + ((now / 60000 % 60 + 1) / (-N).toNat * (-N).toNat) * 60000) ∧
    parseCron "*/5 * * * *" 43260000 = some (some 43500000) ∧
    parseCron "*/5 * * * *" 43500000 = some (some 43800000) ∧
    parseCron "*/0x10 * * * *" 43260000 = some (some 44160000) ∧
    parseCron "*/-5 * * * *" 43260000 = some (some 43200000) := by
  refine ⟨?_, ?_, ?_, ?_, ?_, by decide, by decide, by decide, by decide⟩
  · intro h
    simp [parseCron, h]
  · intro N h hp hN
    have h0 : N ≠ 0 := by omega
    refine ⟨by simp [parseCron, h, hp, h0], (nextEveryN_spec N now hN).1,
      (nextEveryN_spec N now hN).2⟩
  · intro h hp
    simp [parseCron, h, hp]
  · intro h hp
    simp [parseCron, h, hp]
  · intro N h hp hN
    have h0 : N ≠ 0 := by omega
    exact ⟨by simp [parseCron, h, hp, h0], nextEveryN_neg N now hN⟩

/-- C4 witness: the amended theorem applied to the every-7-minutes cron at
`12:01:00` (next fire `12:07:00`), to `"0 12 * * *"` (`null`), and to the
minus-5 cron (negative interval, the valid past instant the program
computes). -/
theorem c4_parseCron_amended_witness :
    parseCron "*/7 * * * *" 43260000 = some (some (nextEveryN 7 43260000)) ∧
    parseCron "0 12 * * *" 43260000 = none ∧
    parseCron "*/-5 * * * *" 43260000 = some (some (nextEveryN (-5) 43260000)) :=
  ⟨((c4_parseCron_amended "*/7 * * * *" 43260000).2.1 7 (by decide) (by decide)
      (by decide)).1,
   (c4_parseCron_amended "0 12 * * *" 43260000).1 (by decide),
   ((c4_parseCron_amended "*/-5 * * * *" 43260000).2.2.2.2.1 (-5) (by decide)
      (by decide) (by decide)).1⟩

/-! ## C3 — Watcher delivers each item exactly once (confirmed)

Two overlapping discoveries of the same pending file (fs notification and
periodic scan) are two `processFile` invocations interleaved at await
boundaries; whichever synchronous entry prefix runs second is turned away
by the `processing`/`processed` guard, so the handler runs once and the
file is unlinked once, successfully. -/

/-- C3: for any pending item and any interleaving of two overlapping
`processFile` invocations (each an entry step and a body step, four atomic
steps in any order), a succeeding handler is invoked exactly once, exactly
one `unlink` attempt is made and it finds the file (no error), no error
event is emitted, and the file is gone.  Moreover an item already in
`processing` or `processed` is ignored entirely by a further discovery, a
discovery of a file that no longer exists at the entry check is a silent
no-op (no handler call, no error), and a file that disappears between the
entry check and the read is marked `processed` without an error. -/
theorem c3_exactly_once_delivery (fn content : String)
    (handler : String → Bool) (sched : List Bool)
    (hok : handler content = true) (hlen : sched.length = 4)
    (hcnt : sched.count true = 2) :
    ((runTwo handler fn sched
        (⟨[], [], [(fn, content)], 0, 0, 0, 0, 0⟩,
         InvPhase.notStarted, InvPhase.notStarted)).1.handlerCalls = 1 ∧
      (runTwo handler fn sched
        (⟨[], [], [(fn, content)], 0, 0, 0, 0, 0⟩,
         InvPhase.notStarted, InvPhase.notStarted)).1.unlinkAttempts = 1 ∧
      (runTwo handler fn sched
        (⟨[], [], [(fn, content)], 0, 0, 0, 0, 0⟩,
         InvPhase.notStarted, InvPhase.notStarted)).1.unlinkMisses = 0 ∧
      (runTwo handler fn sched
        (⟨[], [], [(fn, content)], 0, 0, 0, 0, 0⟩,
         InvPhase.notStarted, InvPhase.notStarted)).1.errorEvents = 0 ∧
      (runTwo handler fn sched
        (⟨[], [], [(fn, content)], 0, 0, 0, 0, 0⟩,
         InvPhase.notStarted, InvPhase.notStarted)).1.files = []) ∧
    (∀ w : WState, fn ∈ w.processing ∨ fn ∈ w.processed →
      processFile handler w fn = w) ∧
    (∀ w : WState, fn ∉ w.processing → fn ∉ w.processed →
      w.files.lookup fn = none → processFile handler w fn = w) ∧
    (∀ w : WState, w.files.lookup fn = none →
      wBody handler w fn =
        { w with processed := fn :: w.processed
                 processing := w.processing.erase fn }) := by
  refine ⟨?_, ?_, ?_, ?_⟩
  · obtain ⟨b1, b2, b3, b4, rfl⟩ : ∃ b1 b2 b3 b4, sched = [b1, b2, b3, b4] := by
      match sched, hlen with
      | [b1, b2, b3, b4], _ => exact ⟨b1, b2, b3, b4, rfl⟩
    cases b1 <;> cases b2 <;> cases b3 <;> cases b4 <;>
      simp_all [runTwo, stepInv, wEntry, wBody, List.lookup]
  · intro w h
    simp [processFile, wEntry, h]
  · intro w h1 h2 h3
    simp [processFile, wEntry, h1, h2, h3]
  · intro w h
    simp only [wBody, h]

/-- C3 witness: the theorem applied to a concrete item under the
interleaving entryA-entryB-bodyA-bodyB. -/
theorem c3_exactly_once_delivery_witness :
    (runTwo (fun _ => true) "a.json" [true, false, true, false]
        (⟨[], [], [("a.json", "x")], 0, 0, 0, 0, 0⟩,
         InvPhase.notStarted, InvPhase.notStarted)).1.handlerCalls = 1 :=
  (c3_exactly_once_delivery "a.json" "x" (fun _ => true)
    [true, false, true, false] rfl rfl rfl).1.1

/-! ## C7 — Watcher handler failure leaves the item for retry (confirmed) -/

theorem popSteer_nil {st : AgentState} (h : st.steeringQueue = []) :
    popSteer st = st := by
  simp [popSteer, h]

theorem popSteer_cons {st : AgentState} {m : Message} {q : List Message}
    (h : st.steeringQueue = m :: q) :
    popSteer st = { st with messages := st.messages ++ [m], steeringQueue := q } := by
  simp [popSteer, h]

theorem executeTool_role (tools : List ToolImpl) (tc : ToolCall) :
    (executeTool tools tc).role = Role.tool := by
  unfold executeTool
  split
  · rfl
  · split <;> rfl

@[simp] theorem poppedOf_nil : poppedOf [] = [] := rfl

@[simp] theorem steeredOf_nil : steeredOf [] = [] := rfl

@[simp] theorem poppedOf_cons_popped (m : Message) (evs : List AgentEv) :
    poppedOf (AgentEv.popped m :: evs) = m :: poppedOf evs := by
  simp [poppedOf]

@[simp] theorem poppedOf_cons_steered (m : Message) (evs : List AgentEv) :
    poppedOf (AgentEv.steered m :: evs) = poppedOf evs := by
  simp [poppedOf]

@[simp] theorem poppedOf_cons_llmCall (k : Nat) (evs : List AgentEv) :
    poppedOf (AgentEv.llmCall k :: evs) = poppedOf evs := by
  simp [poppedOf]

@[simp] theorem poppedOf_cons_retIdle (evs : List AgentEv) :
    poppedOf (AgentEv.retIdle :: evs) = poppedOf evs := by
  simp [poppedOf]

@[simp] theorem poppedOf_cons_retAnswer (evs : List AgentEv) :
    poppedOf (AgentEv.retAnswer :: evs) = poppedOf evs := by
  simp [poppedOf]

@[simp] theorem steeredOf_cons_steered (m : Message) (evs : List AgentEv) :
    steeredOf (AgentEv.steered m :: evs) = m :: steeredOf evs := by
  simp [steeredOf]

@[simp] theorem steeredOf_cons_popped (m : Message) (evs : List AgentEv) :
    steeredOf (AgentEv.popped m :: evs) = steeredOf evs := by
  simp [steeredOf]

@[simp] theorem steeredOf_cons_llmCall (k : Nat) (evs : List AgentEv) :
    steeredOf (AgentEv.llmCall k :: evs) = steeredOf evs := by
  simp [steeredOf]

@[simp] theorem steeredOf_cons_retIdle (evs : List AgentEv) :
    steeredOf (AgentEv.retIdle :: evs) = steeredOf evs := by
  simp [steeredOf]

@[simp] theorem steeredOf_cons_retAnswer (evs : List AgentEv) :
    steeredOf (AgentEv.retAnswer :: evs) = steeredOf evs := by
  simp [steeredOf]

@[simp] theorem poppedOf_append (a b : List AgentEv) :
    poppedOf (a ++ b) = poppedOf a ++ poppedOf b := by
  simp [poppedOf]

@[simp] theorem steeredOf_append (a b : List AgentEv) :
    steeredOf (a ++ b) = steeredOf a ++ steeredOf b := by
  simp [steeredOf]

@[simp] theorem steeredOf_map_steered (ms : List Message) :
    steeredOf (ms.map AgentEv.steered) = ms := by
  induction ms with
  | nil => rfl
  | cons m rest ih => rw [List.map_cons, steeredOf_cons_steered, ih]

@[simp] theorem poppedOf_map_steered (ms : List Message) :
    poppedOf (ms.map AgentEv.steered) = [] := by
  induction ms with
  | nil => rfl
  | cons m rest ih => rw [List.map_cons, poppedOf_cons_steered, ih]

@[simp] theorem retIdle_not_mem_map_steered (ms : List Message) :
    AgentEv.retIdle ∉ ms.map AgentEv.steered := by
  simp

/-- Core invariants of one `runLoop` activation: the log only grows by a
suffix; the popped messages appear in that suffix in pop order; the initial
queue followed by the arrivals equals the popped messages followed by the
final queue (FIFO, nothing lost or duplicated at the queue level); the
idle-point return only happens with a drained queue; the loop always
resets `isRunning` and never touches the registry. -/
theorem loopAux_spec (n : Nat) : ∀ (oracle : List LLMStep) (st : AgentState),
    ∃ tail, (loopAux oracle st n).state.messages = st.messages ++ tail ∧
      List.Sublist (poppedOf (loopAux oracle st n).events) tail ∧
      st.steeringQueue ++ steeredOf (loopAux oracle st n).events
        = poppedOf (loopAux oracle st n).events
            ++ (loopAux oracle st n).state.steeringQueue ∧
      (AgentEv.retIdle ∈ (loopAux oracle st n).events →
        (loopAux oracle st n).state.steeringQueue = []) ∧
      (loopAux oracle st n).state.isRunning = false ∧
      (loopAux oracle st n).state.tools = st.tools := by
  induction n with
  | zero =>
    intro oracle st
    exact ⟨[], by simp [loopAux]⟩
  | succ r ih =>
    intro oracle st
    rcases hq : st.steeringQueue with _ | ⟨m0, q0⟩
    · have hpop : popSteer st = st := popSteer_nil hq
      simp only [loopAux, hpop, hq]
      by_cases hA : lastIsAssistant st.messages
      · simp only [if_pos hA]
        exact ⟨[], by simp [hq]⟩
      · simp only [if_neg hA]
        rcases oracle with _ | ⟨step, restO⟩
        · exact ⟨[], by simp [hq]⟩
        · rcases hresp : step.response with e | resp
          · simp only [hresp]
            exact ⟨[], by simp [hq]⟩
          · simp only [hresp]
            rcases htc : resp.toolCalls with _ | ⟨tc, tcs⟩
            · simp only [htc]
              exact ⟨[finalAnswerMsg resp.content], by simp [hq]⟩
            · simp only [htc, List.append_assoc, List.singleton_append,
                List.cons_append, List.nil_append]
              obtain ⟨tail', h1, h2, h3, h4, h5, h6⟩ := ih restO
                { messages := st.messages ++ assistantCallMsg resp ::
                    List.map (executeTool st.tools) (tc :: tcs)
                  tools := st.tools, steeringQueue := step.arrivals
                  isRunning := st.isRunning }
              dsimp only at h1 h3
              refine ⟨assistantCallMsg resp ::
                  List.map (executeTool st.tools) (tc :: tcs) ++ tail',
                ?_, ?_, ?_, ?_, h5, h6⟩
              · rw [h1]
                simp
              · simp only [steeredOf_cons_llmCall, poppedOf_cons_llmCall,
                  poppedOf_append, poppedOf_map_steered, List.nil_append]
                exact List.Sublist.cons _
                  (h2.trans (List.sublist_append_right _ _))
              · simp only [steeredOf_cons_llmCall, poppedOf_cons_llmCall,
                  steeredOf_append, poppedOf_append, steeredOf_map_steered,
                  poppedOf_map_steered, List.nil_append]
                exact h3
              · intro hmem
                apply h4
                simpa using hmem
    · have hpop : popSteer st
          = { st with messages := st.messages ++ [m0], steeringQueue := q0 } :=
        popSteer_cons hq
      simp only [loopAux, hpop, hq]
      by_cases hA : lastIsAssistant (st.messages ++ [m0])
      · simp only [if_pos hA]
        rcases q0 with _ | ⟨m1, q1⟩
        · exact ⟨[m0], by simp⟩
        · obtain ⟨tail', h1, h2, h3, h4, h5, h6⟩ := ih oracle
            { messages := st.messages ++ [m0], tools := st.tools
              steeringQueue := m1 :: q1, isRunning := st.isRunning }
          dsimp only at h1 h3
          refine ⟨m0 :: tail', ?_, ?_, ?_, ?_, h5, h6⟩
          · rw [h1]
            simp
          · simp only [poppedOf_cons_popped]
            exact List.Sublist.cons₂ _ h2
          · simp only [poppedOf_cons_popped, steeredOf_cons_popped,
              List.cons_append, List.nil_append] at h3 ⊢
            rw [h3]
          · intro hmem
            apply h4
            simpa using hmem
      · simp only [if_neg hA]
        rcases oracle with _ | ⟨step, restO⟩
        · exact ⟨[m0], by simp⟩
        · rcases hresp : step.response with e | resp
          · simp only [hresp]
            exact ⟨[m0], by simp⟩
          · simp only [hresp]
            rcases htc : resp.toolCalls with _ | ⟨tc, tcs⟩
            · simp only [htc]
              exact ⟨m0 :: [finalAnswerMsg resp.content], by simp⟩
            · simp only [htc, List.append_assoc, List.singleton_append,
                List.cons_append, List.nil_append]
              obtain ⟨tail', h1, h2, h3, h4, h5, h6⟩ := ih restO
                { messages := st.messages ++ m0 :: assistantCallMsg resp ::
                    List.map (executeTool st.tools) (tc :: tcs)
                  tools := st.tools, steeringQueue := q0 ++ step.arrivals
                  isRunning := st.isRunning }
              dsimp only at h1 h3
              refine ⟨m0 :: assistantCallMsg resp ::
                  List.map (executeTool st.tools) (tc :: tcs) ++ tail',
                ?_, ?_, ?_, ?_, h5, h6⟩
              · rw [h1]
                simp
              · simp only [poppedOf_cons_popped, poppedOf_cons_llmCall,
                  poppedOf_append, poppedOf_map_steered, List.nil_append]
                exact List.Sublist.cons₂ _
                  (List.Sublist.cons _ (h2.trans (List.sublist_append_right _ _)))
              · simp only [poppedOf_cons_popped, poppedOf_cons_llmCall,
                  steeredOf_cons_popped, steeredOf_cons_llmCall,
                  steeredOf_append, poppedOf_append, steeredOf_map_steered,
                  poppedOf_map_steered, List.nil_append, List.cons_append]
                rw [List.append_assoc] at h3
                rw [h3]
              · intro hmem
                apply h4
                simpa using hmem

/-- Tool-result messages never carry the `user` role. -/
theorem filter_user_toolMsgs (tools : List ToolImpl) (tcs : List ToolCall) :
    (List.map (executeTool tools) tcs).filter
      (fun m => m.role == Role.user) = [] := by
  induction tcs with
  | nil => rfl
  | cons tc rest ih => simp [List.filter_cons, executeTool_role, ih]

/-- When every queued and every steered message carries the `user` role (as
the coordinator's synthetic messages do), the `user`-role messages of the
appended log suffix are exactly the popped steering messages: each popped
message lands in the log exactly once, in pop order, and nothing else the
loop appends has the `user` role. -/
theorem loopAux_userFilter (n : Nat) :
    ∀ (oracle : List LLMStep) (st : AgentState),
    (∀ m ∈ st.steeringQueue, m.role = Role.user) →
    (∀ step ∈ oracle, ∀ m ∈ step.arrivals, m.role = Role.user) →
    ∃ tail, (loopAux oracle st n).state.messages = st.messages ++ tail ∧
      tail.filter (fun m => m.role == Role.user)
        = poppedOf (loopAux oracle st n).events ∧
      (∀ m ∈ (loopAux oracle st n).state.steeringQueue, m.role = Role.user) := by
  induction n with
  | zero =>
    intro oracle st hqu horc
    exact ⟨[], by simp [loopAux], by simp [loopAux],
      by simp only [loopAux]; exact hqu⟩
  | succ r ih =>
    intro oracle st hqu horc
    rcases hq : st.steeringQueue with _ | ⟨m0, q0⟩
    · have hpop : popSteer st = st := popSteer_nil hq
      simp only [loopAux, hpop, hq]
      by_cases hA : lastIsAssistant st.messages
      · simp only [if_pos hA]
        refine ⟨[], by simp, by simp, ?_⟩
        intro m hm
        exact hqu m (by simp only [hq]; simpa using hm)
      · simp only [if_neg hA]
        rcases oracle with _ | ⟨step, restO⟩
        · refine ⟨[], by simp, by simp, ?_⟩
          intro m hm
          exact hqu m (by simp only [hq]; simpa using hm)
        · have harr : ∀ m ∈ step.arrivals, m.role = Role.user :=
            horc step (by simp)
          have horc' : ∀ s ∈ restO, ∀ m ∈ s.arrivals, m.role = Role.user :=
            fun s hs => horc s (by simp [hs])
          rcases hresp : step.response with e | resp
          · simp only [hresp]
            refine ⟨[], by simp, by simp, ?_⟩
            intro m hm
            simp at hm
            exact harr m hm
          · simp only [hresp]
            rcases htc : resp.toolCalls with _ | ⟨tc, tcs⟩
            · simp only [htc]
              refine ⟨[finalAnswerMsg resp.content], by simp, ?_, ?_⟩
              · simp [List.filter_cons, finalAnswerMsg]
              · intro m hm
                simp at hm
                exact harr m hm
            · simp only [htc, List.append_assoc, List.singleton_append,
                List.cons_append, List.nil_append]
              obtain ⟨tail', h1, h2, h3⟩ := ih restO
                { messages := st.messages ++ assistantCallMsg resp ::
                    List.map (executeTool st.tools) (tc :: tcs)
                  tools := st.tools, steeringQueue := step.arrivals
                  isRunning := st.isRunning }
                (by intro m hm; exact harr m hm) horc'
              dsimp only at h1
              refine ⟨assistantCallMsg resp ::
                  List.map (executeTool st.tools) (tc :: tcs) ++ tail',
                ?_, ?_, h3⟩
              · rw [h1]
                simp
              · simp only [List.filter_cons, List.filter_append,
                  filter_user_toolMsgs, assistantCallMsg]
                simp only [poppedOf_cons_llmCall, poppedOf_append,
                  poppedOf_map_steered, List.nil_append]
                simpa using h2
    · have hpop : popSteer st
          = { st with messages := st.messages ++ [m0], steeringQueue := q0 } :=
        popSteer_cons hq
      have hm0 : m0.role = Role.user := hqu m0 (by simp [hq])
      have hqu' : ∀ m ∈ q0, m.role = Role.user :=
        fun m hm => hqu m (by simp [hq, hm])
      simp only [loopAux, hpop, hq]
      by_cases hA : lastIsAssistant (st.messages ++ [m0])
      · simp only [if_pos hA]
        rcases q0 with _ | ⟨m1, q1⟩
        · refine ⟨[m0], by simp, by simp [List.filter_cons, hm0], by simp⟩
        · obtain ⟨tail', h1, h2, h3⟩ := ih oracle
            { messages := st.messages ++ [m0], tools := st.tools
              steeringQueue := m1 :: q1, isRunning := st.isRunning }
            (by intro m hm; exact hqu' m hm) horc
          dsimp only at h1
          refine ⟨m0 :: tail', ?_, ?_, h3⟩
          · rw [h1]
            simp
          · simp only [List.filter_cons, hm0, poppedOf_cons_popped]
            simpa using h2
      · simp only [if_neg hA]
        rcases oracle with _ | ⟨step, restO⟩
        · refine ⟨[m0], by simp, by simp [List.filter_cons, hm0], by simpa using hqu'⟩
        · have harr : ∀ m ∈ step.arrivals, m.role = Role.user :=
            horc step (by simp)
          have horc' : ∀ s ∈ restO, ∀ m ∈ s.arrivals, m.role = Role.user :=
            fun s hs => horc s (by simp [hs])
          have hqarr : ∀ m ∈ q0 ++ step.arrivals, m.role = Role.user := by
            intro m hm
            rcases List.mem_append.mp hm with h | h
            · exact hqu' m h
            · exact harr m h
          rcases hresp : step.response with e | resp
          · simp only [hresp]
            refine ⟨[m0], by simp, by simp [List.filter_cons, hm0], ?_⟩
            intro m hm
            simp at hm
            rcases hm with h | h
            · exact hqu' m h
            · exact harr m h
          · simp only [hresp]
            rcases htc : resp.toolCalls with _ | ⟨tc, tcs⟩
            · simp only [htc]
              refine ⟨m0 :: [finalAnswerMsg resp.content], by simp, ?_, ?_⟩
              · simp [List.filter_cons, hm0, finalAnswerMsg]
              · intro m hm
                simp at hm
                rcases hm with h | h
                · exact hqu' m h
                · exact harr m h
            · simp only [htc, List.append_assoc, List.singleton_append,
                List.cons_append, List.nil_append]
              obtain ⟨tail', h1, h2, h3⟩ := ih restO
                { messages := st.messages ++ m0 :: assistantCallMsg resp ::
                    List.map (executeTool st.tools) (tc :: tcs)
                  tools := st.tools, steeringQueue := q0 ++ step.arrivals
                  isRunning := st.isRunning }
                (by intro m hm; exact hqarr m hm) horc'
              dsimp only at h1
              refine ⟨m0 :: assistantCallMsg resp ::
                  List.map (executeTool st.tools) (tc :: tcs) ++ tail',
                ?_, ?_, h3⟩
              · rw [h1]
                simp
              · simp only [List.filter_cons, List.filter_append, hm0,
                  filter_user_toolMsgs, assistantCallMsg]
                simp only [poppedOf_cons_popped, poppedOf_cons_llmCall,
                  poppedOf_append, poppedOf_map_steered, List.nil_append]
                simpa using h2


theorem lastIsAssistant_concat (xs : List Message) (m : Message) :
    lastIsAssistant (xs ++ [m]) = (m.role == Role.assistant) := by
  simp [lastIsAssistant, List.getLast?_concat]

/-- The log of a `runLoop` activation only ever grows by a suffix. -/
theorem runLoop_messages_extend (oracle : List LLMStep) (maxIter : Nat)
    (st : AgentState) :
    ∃ tail, (runLoop oracle maxIter st).state.messages = st.messages ++ tail := by
  by_cases h : st.isRunning
  · exact ⟨[], by simp [runLoop, h]⟩
  · obtain ⟨tail, h1, -⟩ :=
      loopAux_spec maxIter oracle { st with isRunning := true }
    exact ⟨tail, by simp only [runLoop, h, if_false, Bool.false_eq_true]; exact h1⟩

/-- So does a `continue()` call (a no-op while running). -/
theorem continueAgent_messages_extend (oracle : List LLMStep) (maxIter : Nat)
    (st : AgentState) :
    ∃ tail, (continueAgent oracle maxIter st).state.messages
      = st.messages ++ tail := by
  by_cases h : st.isRunning
  · exact ⟨[], by simp [continueAgent, h]⟩
  · obtain ⟨tail, h1⟩ := runLoop_messages_extend oracle maxIter st
    refine ⟨tail, ?_⟩
    simp only [continueAgent, h, if_false, Bool.false_eq_true]
    exact h1

/-! ## C1 — Steered messages appended exactly once, FIFO (corrected)

A message steered during the model call that produces the final answer is
never appended in that run: the final-answer exit does not re-check the
queue, so the message stays queued (it would only be appended by a later
`run`/`continue`).  The claim's unconditional "appended exactly once"
therefore fails; it holds for the messages the loop actually dequeues. -/

/-- C1 counterexample: a message steered while the Agent is `Running`
(during the completion call that yields the final answer) is still in the
steering queue when `run`/`continue` returns and is not in the log — it was
not appended in that run, contradicting the unconditional claim. -/
theorem c1_counterexample_steer_during_final_call :
    (runLoop [⟨Except.ok ⟨"A", []⟩, [{ role := Role.user, content := "late" }]⟩]
        10 (steer (initAgent "s" []) { role := Role.user, content := "hello" })).result
      = Except.ok "A" ∧
    (runLoop [⟨Except.ok ⟨"A", []⟩, [{ role := Role.user, content := "late" }]⟩]
        10 (steer (initAgent "s" []) { role := Role.user, content := "hello" })).state.steeringQueue
      = [{ role := Role.user, content := "late" }] ∧
    ({ role := Role.user, content := "late" } : Message) ∉
      (runLoop [⟨Except.ok ⟨"A", []⟩, [{ role := Role.user, content := "late" }]⟩]
        10 (steer (initAgent "s" []) { role := Role.user, content := "hello" })).state.messages := by
  refine ⟨rfl, rfl, by decide⟩

/-- C1 (amended): in any `runLoop` activation from an idle state, with
user-role steering traffic (the coordinator's synthetic messages), the log
grows only by a suffix whose `user`-role messages are exactly the dequeued
steering messages in FIFO order (each dequeued message appended exactly
once); the initial queue followed by the arrivals equals the dequeued
messages followed by the final queue; and each dequeue appends the queue
head immediately after the then-last log message.  Messages still queued
when the loop returns (e.g. steered during the final completion call) are
not appended but stay queued in order. -/
theorem c1_steering_fifo_amended (oracle : List LLMStep) (maxIter : Nat)
    (st : AgentState) (hrun : st.isRunning = false)
    (hqu : ∀ m ∈ st.steeringQueue, m.role = Role.user)
    (horc : ∀ step ∈ oracle, ∀ m ∈ step.arrivals, m.role = Role.user) :
    ∃ tail,
      (runLoop oracle maxIter st).state.messages = st.messages ++ tail ∧
      tail.filter (fun m => m.role == Role.user)
        = poppedOf (runLoop oracle maxIter st).events ∧
      List.Sublist (poppedOf (runLoop oracle maxIter st).events) tail ∧
      st.steeringQueue ++ steeredOf (runLoop oracle maxIter st).events
        = poppedOf (runLoop oracle maxIter st).events
            ++ (runLoop oracle maxIter st).state.steeringQueue ∧
      (∀ s (m : Message) q, s.steeringQueue = m :: q →
        (popSteer s).messages = s.messages ++ [m] ∧
        (popSteer s).steeringQueue = q) := by
  have hrw : runLoop oracle maxIter st
      = loopAux oracle { st with isRunning := true } maxIter := by
    simp [runLoop, hrun]
  obtain ⟨tailA, a1, a2, a3, a4, a5, a6⟩ :=
    loopAux_spec maxIter oracle { st with isRunning := true }
  obtain ⟨tailB, b1, b2, b3⟩ :=
    loopAux_userFilter maxIter oracle { st with isRunning := true }
      (by simpa using hqu) horc
  dsimp only at a1 a3 b1
  have htails : tailA = tailB := by
    have := a1.symm.trans b1
    exact List.append_cancel_left this
  subst htails
  refine ⟨tailA, ?_, ?_, ?_, ?_, ?_⟩
  · rw [hrw]; exact a1
  · rw [hrw]; exact b2
  · rw [hrw]; exact a2
  · rw [hrw]; exact a3
  · intro s m q h
    exact ⟨by simp [popSteer, h], by simp [popSteer, h]⟩

/-- C1 witness: the amended theorem applied to a concrete run in which one
message is steered during a tool-call await and gets dequeued. -/
theorem c1_steering_fifo_amended_witness :
    ∃ tail,
      (runLoop [⟨Except.ok ⟨"", [⟨"1", "t", "x"⟩]⟩,
          [{ role := Role.user, content := "mid" }]⟩,
         ⟨Except.ok ⟨"B", []⟩, []⟩] 10
        (steer (initAgent "s" []) { role := Role.user, content := "go" })).state.messages
        = (steer (initAgent "s" []) { role := Role.user, content := "go" }).messages ++ tail ∧
      tail.filter (fun m => m.role == Role.user)
        = poppedOf (runLoop [⟨Except.ok ⟨"", [⟨"1", "t", "x"⟩]⟩,
            [{ role := Role.user, content := "mid" }]⟩,
           ⟨Except.ok ⟨"B", []⟩, []⟩] 10
          (steer (initAgent "s" []) { role := Role.user, content := "go" })).events ∧
      List.Sublist (poppedOf (runLoop [⟨Except.ok ⟨"", [⟨"1", "t", "x"⟩]⟩,
            [{ role := Role.user, content := "mid" }]⟩,
           ⟨Except.ok ⟨"B", []⟩, []⟩] 10
          (steer (initAgent "s" []) { role := Role.user, content := "go" })).events) tail ∧
      (steer (initAgent "s" []) { role := Role.user, content := "go" }).steeringQueue
          ++ steeredOf (runLoop [⟨Except.ok ⟨"", [⟨"1", "t", "x"⟩]⟩,
            [{ role := Role.user, content := "mid" }]⟩,
           ⟨Except.ok ⟨"B", []⟩, []⟩] 10
          (steer (initAgent "s" []) { role := Role.user, content := "go" })).events
        = poppedOf (runLoop [⟨Except.ok ⟨"", [⟨"1", "t", "x"⟩]⟩,
            [{ role := Role.user, content := "mid" }]⟩,
           ⟨Except.ok ⟨"B", []⟩, []⟩] 10
          (steer (initAgent "s" []) { role := Role.user, content := "go" })).events
            ++ (runLoop [⟨Except.ok ⟨"", [⟨"1", "t", "x"⟩]⟩,
              [{ role := Role.user, content := "mid" }]⟩,
             ⟨Except.ok ⟨"B", []⟩, []⟩] 10
            (steer (initAgent "s" []) { role := Role.user, content := "go" })).state.steeringQueue ∧
      (∀ s (m : Message) q, s.steeringQueue = m :: q →
        (popSteer s).messages = s.messages ++ [m] ∧
        (popSteer s).steeringQueue = q) :=
  c1_steering_fifo_amended _ 10 _ rfl (by decide) (by decide)

/-! ## C6 — Queue drained before every model call (corrected)

The loop dequeues at most one steered message per iteration and then calls
the model whenever the log does not end in an assistant message — even if
more messages remain queued.  Delivery is still strict FIFO, and the
assistant-idle exit only fires with an empty queue. -/

/-- C6 counterexample: with two messages steered during the first
completion call, the second completion call is issued while one message is
still queued (`llmCall 1`), contradicting "never calls the Completion
Client while the steering queue is non-empty". -/
theorem c6_counterexample_model_call_with_nonempty_queue :
    AgentEv.llmCall 1 ∈ (runLoop
      [⟨Except.ok ⟨"", [⟨"1", "t", "x"⟩]⟩,
        [{ role := Role.user, content := "m1" }, { role := Role.user, content := "m2" }]⟩,
       ⟨Except.ok ⟨"B", []⟩, []⟩] 10
      (steer (initAgent "s" []) { role := Role.user, content := "go" })).events ∧
    (runLoop
      [⟨Except.ok ⟨"", [⟨"1", "t", "x"⟩]⟩,
        [{ role := Role.user, content := "m1" }, { role := Role.user, content := "m2" }]⟩,
       ⟨Except.ok ⟨"B", []⟩, []⟩] 10
      (steer (initAgent "s" []) { role := Role.user, content := "go" })).result
      = Except.ok "B" := by
  exact ⟨by decide, rfl⟩

/-- C6 (amended): steering messages are delivered in strict FIFO arrival
order, but each iteration dequeues at most one of them (appending it before
any model call of that iteration), so the model can be called while further
messages remain queued; the queue is fully drained only at the
assistant-idle exit, which never returns with a non-empty queue. -/
theorem c6_fifo_amended (oracle : List LLMStep) (maxIter : Nat)
    (st : AgentState) (hrun : st.isRunning = false) :
    ∃ tail,
      (runLoop oracle maxIter st).state.messages = st.messages ++ tail ∧
      List.Sublist (poppedOf (runLoop oracle maxIter st).events) tail ∧
      st.steeringQueue ++ steeredOf (runLoop oracle maxIter st).events
        = poppedOf (runLoop oracle maxIter st).events
            ++ (runLoop oracle maxIter st).state.steeringQueue ∧
      (AgentEv.retIdle ∈ (runLoop oracle maxIter st).events →
        (runLoop oracle maxIter st).state.steeringQueue = []) ∧
      (∀ s (m : Message) q, s.steeringQueue = m :: q →
        (popSteer s).messages = s.messages ++ [m] ∧
        (popSteer s).steeringQueue = q) := by
  have hrw : runLoop oracle maxIter st
      = loopAux oracle { st with isRunning := true } maxIter := by
    simp [runLoop, hrun]
  obtain ⟨tailA, a1, a2, a3, a4, a5, a6⟩ :=
    loopAux_spec maxIter oracle { st with isRunning := true }
  dsimp only at a1 a3
  refine ⟨tailA, by rw [hrw]; exact a1, by rw [hrw]; exact a2,
    by rw [hrw]; exact a3, by rw [hrw]; exact a4, ?_⟩
  intro s m q h
  exact ⟨by simp [popSteer, h], by simp [popSteer, h]⟩

/-- C6 witness: the amended theorem applied to a concrete run that steers
two messages and terminates at the idle point. -/
theorem c6_fifo_amended_witness :
    ∃ tail,
      (runLoop [⟨Except.ok ⟨"A", []⟩, []⟩] 10
        (steer (initAgent "s" []) { role := Role.user, content := "go" })).state.messages
        = (steer (initAgent "s" []) { role := Role.user, content := "go" }).messages ++ tail ∧
      List.Sublist (poppedOf ((runLoop [⟨Except.ok ⟨"A", []⟩, []⟩] 10
        (steer (initAgent "s" []) { role := Role.user, content := "go" })).events)) tail ∧
      (steer (initAgent "s" []) { role := Role.user, content := "go" }).steeringQueue
          ++ steeredOf (runLoop [⟨Except.ok ⟨"A", []⟩, []⟩] 10
          (steer (initAgent "s" []) { role := Role.user, content := "go" })).events
        = poppedOf (runLoop [⟨Except.ok ⟨"A", []⟩, []⟩] 10
            (steer (initAgent "s" []) { role := Role.user, content := "go" })).events
            ++ (runLoop [⟨Except.ok ⟨"A", []⟩, []⟩] 10
            (steer (initAgent "s" []) { role := Role.user, content := "go" })).state.steeringQueue ∧
      (AgentEv.retIdle ∈ (runLoop [⟨Except.ok ⟨"A", []⟩, []⟩] 10
          (steer (initAgent "s" []) { role := Role.user, content := "go" })).events →
        (runLoop [⟨Except.ok ⟨"A", []⟩, []⟩] 10
          (steer (initAgent "s" []) { role := Role.user, content := "go" })).state.steeringQueue = []) ∧
      (∀ s (m : Message) q, s.steeringQueue = m :: q →
        (popSteer s).messages = s.messages ++ [m] ∧
        (popSteer s).steeringQueue = q) :=
  c6_fifo_amended _ 10 _ rfl

/-! ## C5 — Tool failures become textual results, loop continues (confirmed) -/

/-- C5: an unregistered tool call yields a `tool`-role message whose
content is the "not found" error text; an `execute` rejection with message
`e` yields a `tool`-role message with content `"Error: " ++ e` (containing
the rejection message); nothing is re-thrown, and a run whose first
response requests such a tool call still terminates with the model's final
answer, with the error observation in the log. -/
theorem c5_tool_failure_absorbed (tools : List ToolImpl) (tc : ToolCall) :
    (findTool tools tc.name = none →
      executeTool tools tc = toolResultMsg tc.id tc.name
        ("Error: Tool \"" ++ tc.name ++ "\" not found")) ∧
    (∀ t e, findTool tools tc.name = some t →
      t.execute tc.arguments = Except.error e →
      executeTool tools tc = toolResultMsg tc.id tc.name ("Error: " ++ e)) ∧
    (∀ (st : AgentState) (maxIter : Nat) (c1c c2c : String),
      st.isRunning = false → st.steeringQueue = [] →
      lastIsAssistant st.messages = false → 2 ≤ maxIter → st.tools = tools →
      (runLoop [⟨Except.ok ⟨c1c, [tc]⟩, []⟩, ⟨Except.ok ⟨c2c, []⟩, []⟩]
          maxIter st).result = Except.ok c2c ∧
      executeTool tools tc ∈ (runLoop [⟨Except.ok ⟨c1c, [tc]⟩, []⟩,
          ⟨Except.ok ⟨c2c, []⟩, []⟩] maxIter st).state.messages) := by
  refine ⟨?_, ?_, ?_⟩
  · intro h
    simp [executeTool, h]
  · intro t e h1 h2
    simp [executeTool, h1, h2]
  · intro st maxIter c1c c2c hrun hq hla hit htools
    obtain ⟨r, rfl⟩ : ∃ r, maxIter = r + 2 := ⟨maxIter - 2, by omega⟩
    have hrw : runLoop [⟨Except.ok ⟨c1c, [tc]⟩, []⟩, ⟨Except.ok ⟨c2c, []⟩, []⟩]
        (r + 2) st
        = loopAux [⟨Except.ok ⟨c1c, [tc]⟩, []⟩, ⟨Except.ok ⟨c2c, []⟩, []⟩]
            { st with isRunning := true } (r + 2) := by
      simp [runLoop, hrun]
    have hpop2 : popSteer
        { messages := st.messages, tools := st.tools
          steeringQueue := ([] : List Message), isRunning := true }
        = { messages := st.messages, tools := st.tools
            steeringQueue := [], isRunning := true } := popSteer_nil rfl
    have hpop3 : popSteer
        { messages := (st.messages ++ [assistantCallMsg ⟨c1c, [tc]⟩]) ++
            [executeTool st.tools tc]
          tools := st.tools, steeringQueue := ([] : List Message)
          isRunning := true }
        = { messages := (st.messages ++ [assistantCallMsg ⟨c1c, [tc]⟩]) ++
              [executeTool st.tools tc]
            tools := st.tools, steeringQueue := [], isRunning := true } :=
      popSteer_nil rfl
    have hla2 : lastIsAssistant ((st.messages ++ [assistantCallMsg ⟨c1c, [tc]⟩])
        ++ [executeTool st.tools tc]) = false := by
      rw [lastIsAssistant_concat]
      simp [executeTool_role]
    rw [hrw]
    simp only [loopAux, hq, hpop2, List.map_cons, List.map_nil,
      List.append_nil, List.nil_append, hla, Bool.false_eq_true, if_false,
      hpop3, hla2]
    constructor
    · trivial
    · simp [htools]

/-- C5 witness: a registered tool that rejects with "boom": the error text
is the tool observation and the run still returns "done". -/
theorem c5_tool_failure_absorbed_witness :
    executeTool [⟨"w", "d", fun _ => Except.error "boom"⟩] ⟨"1", "w", "x"⟩
      = toolResultMsg "1" "w" "Error: boom" ∧
    (runLoop [⟨Except.ok ⟨"", [⟨"1", "w", "x"⟩]⟩, []⟩, ⟨Except.ok ⟨"done", []⟩, []⟩]
        10 (initAgent "s" [⟨"w", "d", fun _ => Except.error "boom"⟩])).result
      = Except.ok "done" :=
  ⟨(c5_tool_failure_absorbed [⟨"w", "d", fun _ => Except.error "boom"⟩]
      ⟨"1", "w", "x"⟩).2.1 _ "boom" rfl rfl,
   ((c5_tool_failure_absorbed [⟨"w", "d", fun _ => Except.error "boom"⟩]
      ⟨"1", "w", "x"⟩).2.2 (initAgent "s" [⟨"w", "d", fun _ => Except.error "boom"⟩])
      10 "" "done" rfl rfl (by decide) (by decide) rfl).1⟩

/-! ## C8 — Coordinator delivery of a pending item (corrected)

`handlePendingTask` steers the synthetic user message and calls
`continue()` exactly when the agent is idle; but `recordResult` runs only
after the awaited `continue()` resolves.  When the loop throws (transport
failure, iteration limit), the rejection propagates to the watcher and no
Task Result is recorded at all — so "records a success result regardless of
what happened inside the Agent loop" fails. -/

/-- C8 counterexample: delivering a pending item to an idle agent whose
completion call fails propagates the error and records nothing, where the
claim promises an always-success Task Result. -/
theorem c8_counterexample_no_result_on_loop_error :
    handlePendingTask [⟨Except.error (), []⟩] 10 (initAgent "s" [])
      ⟨"t1", "n", "p", 5⟩ 999 = Except.error RunErr.transport := rfl

/-- C8 (amended): the coordinator builds the synthetic user message
`"[Proactive Task: <name>]\n<prompt>"`, steers it, then invokes
`continue()` iff the agent is not running (the returned flag records the
invocation); if the agent was busy, or the loop returns normally (tool
failures are absorbed into the log, so this is the normal case), a Task
Result with `success = true` is recorded; if the awaited loop rejects, the
rejection propagates and no result is recorded. -/
theorem c8_handlePendingTask_amended (oracle : List LLMStep) (maxIter : Nat)
    (st : AgentState) (pt : PendingTask) (now : Nat) :
    (proactiveMsg pt).role = Role.user ∧
    (proactiveMsg pt).content
      = "[Proactive Task: " ++ pt.taskName ++ "]\n" ++ pt.prompt ∧
    (steer st (proactiveMsg pt)).steeringQueue
      = st.steeringQueue ++ [proactiveMsg pt] ∧
    (st.isRunning = true →
      handlePendingTask oracle maxIter st pt now
        = Except.ok (steer st (proactiveMsg pt), false,
            { taskId := pt.taskId, success := true, timestamp := now })) ∧
    (st.isRunning = false →
      (∀ e, (continueAgent oracle maxIter (steer st (proactiveMsg pt))).result
          = Except.error e →
        handlePendingTask oracle maxIter st pt now = Except.error e) ∧
      (∀ c, (continueAgent oracle maxIter (steer st (proactiveMsg pt))).result
          = Except.ok c →
        handlePendingTask oracle maxIter st pt now
          = Except.ok
              ((continueAgent oracle maxIter (steer st (proactiveMsg pt))).state,
               true,
               { taskId := pt.taskId, success := true, timestamp := now }))) := by
  refine ⟨rfl, rfl, rfl, ?_, ?_⟩
  · intro h
    simp [handlePendingTask, steer, h]
  · intro h
    have hs : (steer st (proactiveMsg pt)).isRunning = false := h
    constructor
    · intro e he
      simp only [handlePendingTask, hs, Bool.false_eq_true, if_false]
      rw [he]
    · intro c hc
      simp only [handlePendingTask, hs, Bool.false_eq_true, if_false]
      rw [hc]

/-- C8 witness: the amended theorem applied to a busy agent: `continue()`
is skipped and the success result is recorded immediately. -/
theorem c8_handlePendingTask_amended_witness :
    handlePendingTask [] 5
      { messages := [], tools := [], steeringQueue := [], isRunning := true }
      ⟨"t1", "n", "p", 5⟩ 7
      = Except.ok
          (steer { messages := [], tools := [], steeringQueue := [], isRunning := true }
            (proactiveMsg ⟨"t1", "n", "p", 5⟩), false,
           { taskId := "t1", success := true, timestamp := 7 }) :=
  (c8_handlePendingTask_amended [] 5
    { messages := [], tools := [], steeringQueue := [], isRunning := true }
    ⟨"t1", "n", "p", 5⟩ 7).2.2.2.1 rfl

/-! ## C10 — Log head invariant (confirmed)

In every reachable state the log is non-empty and starts with the system
message; `run`/`continue` only append, `clear` resets to exactly the first
message and empties the queue, and `registerTool` rewrites only the first
message's content. -/

/-- C10: every reachable Agent state has a non-empty log headed by a
system-role message; `run` and `continue` only append to the log; `steer`
does not touch the log; `clear` resets the log to exactly its first entry
and empties the steering queue; `registerTool` replaces only the content of
the system-role head, leaving length and every other entry unchanged. -/
theorem c10_log_invariant (sp : String) (mi : Nat) :
    (∀ st, Reach sp mi st →
      ∃ h t, st.messages = h :: t ∧ h.role = Role.system) ∧
    (∀ oracle (st : AgentState) input, ∃ tail,
      (runAgent oracle mi st input).state.messages = st.messages ++ tail) ∧
    (∀ oracle (st : AgentState), ∃ tail,
      (continueAgent oracle mi st).state.messages = st.messages ++ tail) ∧
    (∀ (st : AgentState) m, (steer st m).messages = st.messages) ∧
    (∀ (st : AgentState) h t, st.messages = h :: t →
      (clearAgent st).messages = [h] ∧ (clearAgent st).steeringQueue = []) ∧
    (∀ (st : AgentState) tool h t, st.messages = h :: t →
      h.role = Role.system →
      (registerTool sp st tool).messages
        = { h with content := buildSystemPrompt sp (setTool st.tools tool) } :: t) := by
  refine ⟨?_, ?_, ?_, ?_, ?_, ?_⟩
  · intro st hr
    induction hr with
    | init tools => exact ⟨_, [], rfl, rfl⟩
    | runStep st oracle input hr hidle ih =>
      obtain ⟨h, t, hm, hrole⟩ := ih
      obtain ⟨tail, htail⟩ := runLoop_messages_extend oracle mi
        { st with messages :=
            st.messages ++ [{ role := Role.user, content := input }] }
      refine ⟨h, t ++ [{ role := Role.user, content := input }] ++ tail, ?_, hrole⟩
      show (runAgent oracle mi st input).state.messages = _
      rw [show runAgent oracle mi st input
          = runLoop oracle mi { st with messages :=
              st.messages ++ [{ role := Role.user, content := input }] } from rfl]
      rw [htail]
      simp [hm]
    | steerStep st m hr ih => exact ih
    | contStep st oracle hr ih =>
      obtain ⟨h, t, hm, hrole⟩ := ih
      obtain ⟨tail, htail⟩ := continueAgent_messages_extend oracle mi st
      exact ⟨h, t ++ tail, by rw [htail]; simp [hm], hrole⟩
    | clearStep st hr ih =>
      obtain ⟨h, t, hm, hrole⟩ := ih
      exact ⟨h, [], by simp [clearAgent, hm], hrole⟩
    | regStep st tool hr ih =>
      obtain ⟨h, t, hm, hrole⟩ := ih
      refine ⟨{ h with content := buildSystemPrompt sp (setTool st.tools tool) },
        t, ?_, hrole⟩
      simp [registerTool, hm, hrole]
  · intro oracle st input
    obtain ⟨tail, htail⟩ := runLoop_messages_extend oracle mi
      { st with messages :=
          st.messages ++ [{ role := Role.user, content := input }] }
    refine ⟨[{ role := Role.user, content := input }] ++ tail, ?_⟩
    show (runLoop oracle mi _).state.messages = _
    rw [htail]
    simp
  · intro oracle st
    exact continueAgent_messages_extend oracle mi st
  · intro st m
    rfl
  · intro st h t hm
    exact ⟨by simp [clearAgent, hm], rfl⟩
  · intro st tool h t hm hrole
    simp [registerTool, hm, hrole]

/-- C10 witness: the invariant at a freshly constructed agent reached via
`Reach.init`, plus `clear` applied to it. -/
theorem c10_log_invariant_witness :
    (∃ h t, (initAgent "base" []).messages = h :: t ∧ h.role = Role.system) ∧
    (clearAgent (initAgent "base" [])).messages
      = [{ role := Role.system, content := buildSystemPrompt "base" [] }] ∧
    (clearAgent (initAgent "base" [])).steeringQueue = [] :=
  ⟨(c10_log_invariant "base" 10).1 _ (Reach.init []),
   ((c10_log_invariant "base" 10).2.2.2.2.1 (initAgent "base" [])
      { role := Role.system, content := buildSystemPrompt "base" [] } [] rfl).1,
   ((c10_log_invariant "base" 10).2.2.2.2.1 (initAgent "base" [])
      { role := Role.system, content := buildSystemPrompt "base" [] } [] rfl).2⟩

end PiMonoMini
